import Mathlib

/-!
Verification of the training-loop driver of the monocular depth-estimation
repository (src/train.py, class Trainer).

The trainer is shallowly embedded as an executable state-transition system:
mutable run state (best-metric trackers, running-average accumulators, the
wandb step counter, the learning-rate schedule position, and abstract
model/optimizer version counters) is threaded explicitly, and every side
effect of the loop (forward/backward pass, scalar or image log emission,
run-summary writes, checkpoint writes, schedule steps, epoch checkpoints)
is recorded as an element of an event trace.

Quantities that the surrounding collaborators produce at run time (batch
sizes, loss values, metric values, wall-clock iteration durations,
validation results) are inputs of the embedding, supplied per batch.
Machine floats are modelled as rationals.
-/

namespace DepthTrainer

/-- Hyperparameter configuration consumed by Trainer.train_and_evaluate:
the keys of the config mapping read in src/train.py. -/
structure Config where
  batch_size : ℕ
  lr : ℚ
  lr_scheduler_step_size : ℕ
  start_epoch : ℕ
  epochs : ℕ
  training_loss_log_interval : ℕ
  other_metrics_log_interval : ℕ
  test_batch_size : ℕ
  deriving Repr, DecidableEq

/-- Modelled from the spec: the RunningAverage accumulator lives in the
repository's utils module, which is not under src/.  Per the spec it is a
mutable accumulator holding (sum, count), exposing update(value, weight=1)
with sum increased by value*weight and count by weight, and a read that
returns sum/count, failing with a defined empty-accumulator condition when
count is zero. -/
structure RunningAverage where
  sum : ℚ
  count : ℚ
  deriving Repr, DecidableEq

/-- A freshly instantiated accumulator: sum and count both zero. -/
def RunningAverage.init : RunningAverage := ⟨0, 0⟩

/-- update(value, weight): add value*weight to the sum and weight to the count. -/
def RunningAverage.update (ra : RunningAverage) (value weight : ℚ) : RunningAverage :=
  ⟨ra.sum + value * weight, ra.count + weight⟩

/-- The value an accumulator read yields once data is present: sum / count.
(Rational division; only read by the trainer after at least one update.) -/
def RunningAverage.avg (ra : RunningAverage) : ℚ := ra.sum / ra.count

/-- Modelled from the spec: the guarded read, returning the defined
empty-accumulator condition (none) when count is zero. -/
def RunningAverage.read (ra : RunningAverage) : Option ℚ :=
  if ra.count = 0 then none else some (ra.sum / ra.count)

/-- Apply a finite sequence of (value, weight) updates to a fresh accumulator. -/
def RunningAverage.applyUpdates (l : List (ℚ × ℚ)) : RunningAverage :=
  l.foldl (fun ra p => ra.update p.1 p.2) RunningAverage.init

/-- Modelled from the spec: the step-decay learning-rate schedule contract of
the external optimizer library (torch StepLR with gamma, used in train.py
with gamma = 0.1): after lastEpoch step calls the learning rate equals
baseLr * gamma ^ (lastEpoch / stepSize). -/
structure StepLR where
  baseLr : ℚ
  stepSize : ℕ
  gamma : ℚ
  lastEpoch : ℕ
  deriving Repr, DecidableEq

/-- StepLR as constructed in train.py: gamma = 0.1, schedule position 0. -/
def StepLR.mkInit (base : ℚ) (ss : ℕ) : StepLR := ⟨base, ss, 1 / 10, 0⟩

/-- One scheduler step: advance the schedule position. -/
def StepLR.step (sc : StepLR) : StepLR := { sc with lastEpoch := sc.lastEpoch + 1 }

/-- The learning rate at the current schedule position. -/
def StepLR.lr (sc : StepLR) : ℚ := sc.baseLr * sc.gamma ^ (sc.lastEpoch / sc.stepSize)

/-- Per-batch observations supplied by the collaborators during one training
iteration: the batch size (images.shape[0]), the two loss values, the
wall-clock duration of the iteration, the training metrics returned by
evaluate_predictions (an rmse entry plus arbitrary further entries), and the
validation results returned by evaluate for that iteration's validation call. -/
structure Batch where
  batchSize : ℕ
  perPixelLoss : ℚ
  featureLoss : ℚ
  iterTime : ℚ
  trainRmse : ℚ
  trainOtherMetrics : List (String × ℚ)
  testLoss : ℚ
  testRmse : ℚ
  testOtherMetrics : List (String × ℚ)
  deriving Repr, DecidableEq

/-- The distinct wandb.log dictionary keys used by train.py.  Metric fan-out
keys keep their metric name and carry the Train / Validation distinction as
a constructor. -/
inductive LogKey where
  | train (key : String)
  | validation (key : String)
  | avgPerPixelLoss
  | avgFeatureLoss
  | avgValidationLoss
  | sampleImages
  | sampleDepths
  | samplePredictions
  | sampleDifferences
  deriving Repr, DecidableEq

/-- The wandb.run.summary keys written by train.py. -/
inductive SummaryKey where
  | bestTrainRmse
  | bestTestRmse
  deriving Repr, DecidableEq

/-- One observable side effect of the training loop. -/
inductive Event where
  | forwardBackward (epoch iteration : ℕ)
  | etaComputed (epoch iteration : ℕ) (eta : ℚ)
  | scalarLog (key : LogKey) (value : ℚ) (step : ℤ)
  | imageLog (key : LogKey) (step : ℤ)
  | summarySet (key : SummaryKey) (value : ℚ)
  | saveCheckpoint (isBest : Bool) (step : ℤ)
  | lrStep
  | saveEpoch (epochIndex : ℕ)
  deriving Repr, DecidableEq

/-- The mutable run state of train_and_evaluate.  Model and optimizer
contents are black boxes; the version counters record how often they were
mutated by the optimization step. -/
structure TState where
  bestRmse : ℚ
  bestTestRmse : ℚ
  isBest : Bool
  wandbStep : ℤ
  accPixel : RunningAverage
  accFeature : RunningAverage
  accTime : RunningAverage
  sched : StepLR
  modelVersion : ℕ
  optimVersion : ℕ
  deriving Repr, DecidableEq

/-- write_metrics: fan a metrics mapping out to wandb.log, one scalar event
per entry, prefixed Train or Validation via the key constructor. -/
def writeMetricsEvents (isTrain : Bool) (metrics : List (String × ℚ)) (st : ℤ) : List Event :=
  metrics.map (fun kv =>
    Event.scalarLog (if isTrain then LogKey.train kv.1 else LogKey.validation kv.1) kv.2 st)

/-- compare_predictions: the four image-grid log events. -/
def comparePredictionsEvents (st : ℤ) : List Event :=
  [Event.imageLog LogKey.sampleImages st, Event.imageLog LogKey.sampleDepths st,
   Event.imageLog LogKey.samplePredictions st, Event.imageLog LogKey.sampleDifferences st]

/-- Lines 124-126 of train.py: if the validation rmse improves on
best_test_rmse, record it in the run summary and lower the tracker. -/
def bestTestUpdate (testRmse : ℚ) (s : TState) : TState × List Event :=
  if testRmse < s.bestTestRmse then
    ({ s with bestTestRmse := testRmse }, [Event.summarySet SummaryKey.bestTestRmse testRmse])
  else (s, [])

/-- Lines 103-128 of train.py: the other_metrics_log_interval block.
Training metrics are fanned out, a validation pass is logged (loss, metrics,
four visualization grids), the best-train tracker is updated on strict
improvement, save_checkpoint is invoked with the is_best flag, the
best-validation tracker is updated on strict improvement, and is_best is
reset to False. -/
def metricsBlock (b : Batch) (s : TState) : TState × List Event :=
  let trainMetrics : List (String × ℚ) := ("rmse", b.trainRmse) :: b.trainOtherMetrics
  let testMetrics : List (String × ℚ) := ("rmse", b.testRmse) :: b.testOtherMetrics
  let evalEvents :=
    writeMetricsEvents true trainMetrics s.wandbStep ++
    comparePredictionsEvents s.wandbStep ++
    [Event.scalarLog LogKey.avgValidationLoss b.testLoss s.wandbStep] ++
    writeMetricsEvents false testMetrics s.wandbStep
  let out1 :=
    if b.trainRmse < s.bestRmse then
      (({ s with bestRmse := b.trainRmse, isBest := true } : TState),
       [Event.summarySet SummaryKey.bestTrainRmse b.trainRmse])
    else (s, ([] : List Event))
  let ckptEvent := Event.saveCheckpoint out1.1.isBest out1.1.wandbStep
  let out2 := bestTestUpdate b.testRmse out1.1
  ({ out2.1 with isBest := false },
   evalEvents ++ out1.2 ++ [ckptEvent] ++ out2.2)

/-- Lines 66-128 of train.py: one training iteration.  Forward, backward and
optimizer step (bumping the model/optimizer versions), loss and time
accumulator updates, the ETA computation, and the two periodic logging
blocks guarded by the configured intervals. -/
def iterBody (cfg : Config) (numBatches epoch iteration : ℕ) (b : Batch) (s : TState) :
    TState × List Event :=
  let s1 := { s with
    modelVersion := s.modelVersion + 1
    optimVersion := s.optimVersion + 1
    accPixel := s.accPixel.update b.perPixelLoss (b.batchSize : ℚ)
    accFeature := s.accFeature.update b.featureLoss (b.batchSize : ℚ)
    accTime := s.accTime.update b.iterTime 1 }
  let eta := s1.accTime.avg * ((numBatches : ℚ) - (iteration : ℚ))
  let baseEvents := [Event.forwardBackward epoch iteration, Event.etaComputed epoch iteration eta]
  let lossLogEvents :=
    if iteration % cfg.training_loss_log_interval = 0 then
      [Event.scalarLog LogKey.avgPerPixelLoss s1.accPixel.avg s1.wandbStep,
       Event.scalarLog LogKey.avgFeatureLoss s1.accFeature.avg s1.wandbStep]
    else []
  let out2 :=
    if iteration % cfg.other_metrics_log_interval = 0 then metricsBlock b s1
    else (s1, [])
  (out2.1, baseEvents ++ lossLogEvents ++ out2.2)

/-- The enumerate(train_dataloader) loop: successive iteration indices. -/
def runIters (cfg : Config) (numBatches epoch : ℕ) :
    ℕ → List Batch → TState → TState × List Event
  | _, [], s => (s, [])
  | i, b :: rest, s =>
    let out1 := iterBody cfg numBatches epoch i b s
    let out2 := runIters cfg numBatches epoch (i + 1) rest out1.1
    (out2.1, out1.2 ++ out2.2)

/-- One epoch of the main loop: increment wandb_step at epoch start, run all
batches, then step the schedule and save the epoch checkpoint. -/
def epochBody (cfg : Config) (numBatches epoch : ℕ) (batches : List Batch) (s : TState) :
    TState × List Event :=
  let s0 := { s with wandbStep := s.wandbStep + 1 }
  let out := runIters cfg numBatches epoch 0 batches s0
  ({ out.1 with sched := out.1.sched.step },
   out.2 ++ [Event.lrStep, Event.saveEpoch epoch])

/-- The epoch loop over range(start_epoch, epochs), driven by the remaining
epoch count; the per-epoch batch observations are taken positionally from
the data list. -/
def runEpochs (cfg : Config) (numBatches : ℕ) :
    ℕ → ℕ → List (List Batch) → TState → TState × List Event
  | _, 0, _, s => (s, [])
  | e, n + 1, data, s =>
    let out1 := epochBody cfg numBatches e (data.headD []) s
    let out2 := runEpochs cfg numBatches (e + 1) n data.tail out1.1
    (out2.1, out1.2 ++ out2.2)

/-- The run state as it stands just before the main epoch loop: sentinel
best trackers (9e20), is_best False, wandb_step = start_epoch*num_batches-1,
freshly instantiated accumulators, and the schedule advanced synthetically
start_epoch times (the for-loop over range(start_epoch) in train.py). -/
def initState (cfg : Config) (numBatches : ℕ) : TState :=
  { bestRmse := 9 * 10 ^ 20
    bestTestRmse := 9 * 10 ^ 20
    isBest := false
    wandbStep := (cfg.start_epoch : ℤ) * (numBatches : ℤ) - 1
    accPixel := RunningAverage.init
    accFeature := RunningAverage.init
    accTime := RunningAverage.init
    sched := (List.range cfg.start_epoch).foldl (fun sc _ => sc.step)
      (StepLR.mkInit cfg.lr cfg.lr_scheduler_step_size)
    modelVersion := 0
    optimVersion := 0 }

/-- The scheduler steps performed synthetically before the main loop. -/
def syntheticSchedEvents (cfg : Config) : List Event :=
  List.replicate cfg.start_epoch Event.lrStep

/-- train_and_evaluate: synthetic schedule advance, then the epoch loop. -/
def trainAndEvaluate (cfg : Config) (numBatches : ℕ) (data : List (List Batch)) :
    TState × List Event :=
  let out := runEpochs cfg numBatches cfg.start_epoch (cfg.epochs - cfg.start_epoch)
    data (initState cfg numBatches)
  (out.1, syntheticSchedEvents cfg ++ out.2)

/-- The metrics-log blocks of a run in isolation: fold the block body over
the sequence of batches observed at metrics-log iterations. -/
def runMetricsBlocks (l : List Batch) (s : TState) : TState × List Event :=
  match l with
  | [] => (s, [])
  | b :: rest =>
    let out1 := metricsBlock b s
    let out2 := runMetricsBlocks rest out1.1
    (out2.1, out1.2 ++ out2.2)

/-- The wandb step carried by a scalar or image log event. -/
def Event.stepOf : Event → Option ℤ
  | .scalarLog _ _ st => some st
  | .imageLog _ st => some st
  | _ => none

def isEta : Event → Bool
  | .etaComputed _ _ _ => true
  | _ => false

def isFB : Event → Bool
  | .forwardBackward _ _ => true
  | _ => false

def isLRStepEvent : Event → Bool
  | .lrStep => true
  | _ => false

def isSaveEpochEvent : Event → Bool
  | .saveEpoch _ => true
  | _ => false

def isCkpt : Event → Bool
  | .saveCheckpoint _ _ => true
  | _ => false

/-- Forward/backward passes and scheduler steps, in order. -/
def isCoreEvent : Event → Bool
  | .forwardBackward _ _ => true
  | .lrStep => true
  | _ => false

def isScalarKey (k : LogKey) : Event → Bool
  | .scalarLog k2 _ _ => decide (k2 = k)
  | _ => false

def countEvents (p : Event → Bool) (l : List Event) : ℕ := (l.filter p).length

/-- The batches actually consumed by n epochs of the loop, in order. -/
def usedBatches : ℕ → List (List Batch) → List Batch
  | 0, _ => []
  | n + 1, data => data.headD [] ++ usedBatches n data.tail

/-- The ETA events the amended per-iteration claim predicts for one epoch:
at iteration i, the mean of all iteration durations of the run so far
(prior durations done, then the current epoch's durations one at a time)
multiplied by numBatches - i. -/
def etaEventsFrom (numBatches epoch : ℕ) : ℕ → List ℚ → List ℚ → List Event
  | _, _, [] => []
  | i, done, t :: rest =>
    let done2 := done ++ [t]
    Event.etaComputed epoch i
        ((done2.sum / (done2.length : ℚ)) * ((numBatches : ℚ) - (i : ℚ)))
      :: etaEventsFrom numBatches epoch (i + 1) done2 rest

/-- The ETA events the amended claim predicts for a whole run: per-epoch
duration lists are consumed positionally, the prior-duration list is
threaded across epochs. -/
def expectedEtaTrace (numBatches : ℕ) : ℕ → ℕ → List ℚ → List (List ℚ) → List Event
  | _, 0, _, _ => []
  | e, n + 1, done, tss =>
    etaEventsFrom numBatches e 0 done (tss.headD []) ++
      expectedEtaTrace numBatches (e + 1) n (done ++ tss.headD []) tss.tail

/-- The ETA events the claim as stated predicts: average duration times the
number of iterations strictly remaining after the completed one. -/
def strictRemainingEtaTrace (numBatches : ℕ) : ℕ → ℕ → List ℚ → List (List ℚ) → List Event
  | _, 0, _, _ => []
  | e, n + 1, done, tss =>
    strictRemainingEtaEvents numBatches e 0 done (tss.headD []) ++
      strictRemainingEtaTrace numBatches (e + 1) n (done ++ tss.headD []) tss.tail
where
  strictRemainingEtaEvents (numBatches epoch : ℕ) : ℕ → List ℚ → List ℚ → List Event
    | _, _, [] => []
    | i, done, t :: rest =>
      let done2 := done ++ [t]
      Event.etaComputed epoch i
          ((done2.sum / (done2.length : ℚ)) * ((numBatches : ℚ) - (i : ℚ) - 1))
        :: strictRemainingEtaEvents numBatches epoch (i + 1) done2 rest

/-! ## Basic lemmas about the accumulator and the schedule -/

theorem RunningAverage.foldl_update (l : List (ℚ × ℚ)) (ra : RunningAverage) :
    l.foldl (fun ra p => ra.update p.1 p.2) ra =
      ⟨ra.sum + (l.map (fun p => p.1 * p.2)).sum, ra.count + (l.map Prod.snd).sum⟩ := by
  induction l generalizing ra with
  | nil => simp
  | cons p rest ih =>
    rw [List.foldl_cons, ih]
    simp only [RunningAverage.update, RunningAverage.mk.injEq, List.map_cons, List.sum_cons]
    constructor <;> ring

theorem RunningAverage.applyUpdates_eq (l : List (ℚ × ℚ)) :
    RunningAverage.applyUpdates l =
      ⟨(l.map (fun p => p.1 * p.2)).sum, (l.map Prod.snd).sum⟩ := by
  simpa [RunningAverage.applyUpdates, RunningAverage.init] using
    RunningAverage.foldl_update l RunningAverage.init

theorem StepLR.foldl_range_step (n : ℕ) (sc : StepLR) :
    (List.range n).foldl (fun sc _ => sc.step) sc = StepLR.step^[n] sc := by
  induction n generalizing sc with
  | zero => simp
  | succ m ih =>
    rw [List.range_succ, List.foldl_append]
    simp [ih, Function.iterate_succ_apply']

theorem StepLR.step_lastEpoch (sc : StepLR) : sc.step.lastEpoch = sc.lastEpoch + 1 := rfl

theorem StepLR.iterate_step_lastEpoch (n : ℕ) (sc : StepLR) :
    (StepLR.step^[n] sc).lastEpoch = sc.lastEpoch + n := by
  induction n with
  | zero => simp
  | succ m ih => rw [Function.iterate_succ_apply', StepLR.step_lastEpoch, ih]; omega

theorem StepLR.iterate_step_base (n : ℕ) (sc : StepLR) :
    (StepLR.step^[n] sc).baseLr = sc.baseLr ∧ (StepLR.step^[n] sc).stepSize = sc.stepSize ∧
      (StepLR.step^[n] sc).gamma = sc.gamma := by
  induction n with
  | zero => simp
  | succ m ih => rw [Function.iterate_succ_apply']; simpa [StepLR.step] using ih

/-! ## The schedule through the trainer: the loop body never touches it,
the epoch end steps it once -/

theorem metricsBlock_sched (b : Batch) (s : TState) :
    (metricsBlock b s).1.sched = s.sched := by
  by_cases h1 : b.trainRmse < s.bestRmse <;> by_cases h2 : b.testRmse < s.bestTestRmse <;>
    simp [metricsBlock, bestTestUpdate, h1, h2]

theorem iterBody_sched (cfg : Config) (numBatches epoch iteration : ℕ) (b : Batch) (s : TState) :
    (iterBody cfg numBatches epoch iteration b s).1.sched = s.sched := by
  by_cases h1 : iteration % cfg.training_loss_log_interval = 0 <;>
    by_cases h2 : iteration % cfg.other_metrics_log_interval = 0 <;>
      simp [iterBody, metricsBlock_sched, h1, h2]

theorem runIters_sched (cfg : Config) (numBatches epoch : ℕ) (batches : List Batch)
    (i : ℕ) (s : TState) :
    (runIters cfg numBatches epoch i batches s).1.sched = s.sched := by
  induction batches generalizing i s with
  | nil => rfl
  | cons b rest ih => simp [runIters, ih, iterBody_sched]

theorem epochBody_sched (cfg : Config) (numBatches epoch : ℕ) (batches : List Batch)
    (s : TState) :
    (epochBody cfg numBatches epoch batches s).1.sched = s.sched.step := by
  simp [epochBody, runIters_sched]

theorem runEpochs_sched (cfg : Config) (numBatches : ℕ) (n e : ℕ)
    (data : List (List Batch)) (s : TState) :
    (runEpochs cfg numBatches e n data s).1.sched = StepLR.step^[n] s.sched := by
  induction n generalizing e data s with
  | zero => rfl
  | succ m ih =>
    simp only [runEpochs, ih, epochBody_sched]
    exact (Function.iterate_succ_apply _ _ _).symm

/-! ## State-field behaviour of the loop bodies -/

@[simp]
theorem metricsBlock_accPixel (b : Batch) (s : TState) :
    (metricsBlock b s).1.accPixel = s.accPixel := by
  by_cases h1 : b.trainRmse < s.bestRmse <;> by_cases h2 : b.testRmse < s.bestTestRmse <;>
    simp [metricsBlock, bestTestUpdate, h1, h2]

@[simp]
theorem metricsBlock_accFeature (b : Batch) (s : TState) :
    (metricsBlock b s).1.accFeature = s.accFeature := by
  by_cases h1 : b.trainRmse < s.bestRmse <;> by_cases h2 : b.testRmse < s.bestTestRmse <;>
    simp [metricsBlock, bestTestUpdate, h1, h2]

@[simp]
theorem metricsBlock_accTime (b : Batch) (s : TState) :
    (metricsBlock b s).1.accTime = s.accTime := by
  by_cases h1 : b.trainRmse < s.bestRmse <;> by_cases h2 : b.testRmse < s.bestTestRmse <;>
    simp [metricsBlock, bestTestUpdate, h1, h2]

@[simp]
theorem metricsBlock_wandbStep (b : Batch) (s : TState) :
    (metricsBlock b s).1.wandbStep = s.wandbStep := by
  by_cases h1 : b.trainRmse < s.bestRmse <;> by_cases h2 : b.testRmse < s.bestTestRmse <;>
    simp [metricsBlock, bestTestUpdate, h1, h2]

@[simp]
theorem metricsBlock_modelVersion (b : Batch) (s : TState) :
    (metricsBlock b s).1.modelVersion = s.modelVersion := by
  by_cases h1 : b.trainRmse < s.bestRmse <;> by_cases h2 : b.testRmse < s.bestTestRmse <;>
    simp [metricsBlock, bestTestUpdate, h1, h2]

@[simp]
theorem metricsBlock_optimVersion (b : Batch) (s : TState) :
    (metricsBlock b s).1.optimVersion = s.optimVersion := by
  by_cases h1 : b.trainRmse < s.bestRmse <;> by_cases h2 : b.testRmse < s.bestTestRmse <;>
    simp [metricsBlock, bestTestUpdate, h1, h2]

@[simp]
theorem metricsBlock_isBest (b : Batch) (s : TState) :
    (metricsBlock b s).1.isBest = false := by
  by_cases h1 : b.trainRmse < s.bestRmse <;> by_cases h2 : b.testRmse < s.bestTestRmse <;>
    simp [metricsBlock, bestTestUpdate, h1, h2]

/-- The best-train tracker after a metrics block is the minimum of its prior
value and the block's training rmse: the strict-improvement branch realises
a running minimum. -/
@[simp]
theorem metricsBlock_bestRmse (b : Batch) (s : TState) :
    (metricsBlock b s).1.bestRmse = min s.bestRmse b.trainRmse := by
  by_cases h1 : b.trainRmse < s.bestRmse <;> by_cases h2 : b.testRmse < s.bestTestRmse <;>
    simp [metricsBlock, bestTestUpdate, h1, h2, min_eq_right, min_eq_left,
      le_of_lt, le_of_not_lt]

@[simp]
theorem metricsBlock_bestTestRmse (b : Batch) (s : TState) :
    (metricsBlock b s).1.bestTestRmse = min s.bestTestRmse b.testRmse := by
  by_cases h1 : b.trainRmse < s.bestRmse <;> by_cases h2 : b.testRmse < s.bestTestRmse <;>
    simp [metricsBlock, bestTestUpdate, h1, h2, min_eq_right, min_eq_left,
      le_of_lt, le_of_not_lt]

@[simp]
theorem iterBody_accPixel (cfg : Config) (numBatches epoch iteration : ℕ) (b : Batch)
    (s : TState) :
    (iterBody cfg numBatches epoch iteration b s).1.accPixel =
      s.accPixel.update b.perPixelLoss (b.batchSize : ℚ) := by
  by_cases h2 : iteration % cfg.other_metrics_log_interval = 0 <;> simp [iterBody, h2]

@[simp]
theorem iterBody_accFeature (cfg : Config) (numBatches epoch iteration : ℕ) (b : Batch)
    (s : TState) :
    (iterBody cfg numBatches epoch iteration b s).1.accFeature =
      s.accFeature.update b.featureLoss (b.batchSize : ℚ) := by
  by_cases h2 : iteration % cfg.other_metrics_log_interval = 0 <;> simp [iterBody, h2]

@[simp]
theorem iterBody_accTime (cfg : Config) (numBatches epoch iteration : ℕ) (b : Batch)
    (s : TState) :
    (iterBody cfg numBatches epoch iteration b s).1.accTime =
      s.accTime.update b.iterTime 1 := by
  by_cases h2 : iteration % cfg.other_metrics_log_interval = 0 <;> simp [iterBody, h2]

@[simp]
theorem iterBody_wandbStep (cfg : Config) (numBatches epoch iteration : ℕ) (b : Batch)
    (s : TState) :
    (iterBody cfg numBatches epoch iteration b s).1.wandbStep = s.wandbStep := by
  by_cases h2 : iteration % cfg.other_metrics_log_interval = 0 <;> simp [iterBody, h2]

theorem runIters_accPixel (cfg : Config) (numBatches epoch : ℕ) (batches : List Batch)
    (i : ℕ) (s : TState) :
    (runIters cfg numBatches epoch i batches s).1.accPixel =
      batches.foldl (fun ra b => ra.update b.perPixelLoss (b.batchSize : ℚ)) s.accPixel := by
  induction batches generalizing i s with
  | nil => rfl
  | cons b rest ih => simp [runIters, ih]

theorem runIters_accFeature (cfg : Config) (numBatches epoch : ℕ) (batches : List Batch)
    (i : ℕ) (s : TState) :
    (runIters cfg numBatches epoch i batches s).1.accFeature =
      batches.foldl (fun ra b => ra.update b.featureLoss (b.batchSize : ℚ)) s.accFeature := by
  induction batches generalizing i s with
  | nil => rfl
  | cons b rest ih => simp [runIters, ih]

theorem runIters_accTime (cfg : Config) (numBatches epoch : ℕ) (batches : List Batch)
    (i : ℕ) (s : TState) :
    (runIters cfg numBatches epoch i batches s).1.accTime =
      batches.foldl (fun ra b => ra.update b.iterTime 1) s.accTime := by
  induction batches generalizing i s with
  | nil => rfl
  | cons b rest ih => simp [runIters, ih]

theorem runIters_wandbStep (cfg : Config) (numBatches epoch : ℕ) (batches : List Batch)
    (i : ℕ) (s : TState) :
    (runIters cfg numBatches epoch i batches s).1.wandbStep = s.wandbStep := by
  induction batches generalizing i s with
  | nil => rfl
  | cons b rest ih => simp [runIters, ih]

theorem epochBody_accPixel (cfg : Config) (numBatches epoch : ℕ) (batches : List Batch)
    (s : TState) :
    (epochBody cfg numBatches epoch batches s).1.accPixel =
      batches.foldl (fun ra b => ra.update b.perPixelLoss (b.batchSize : ℚ)) s.accPixel := by
  simp [epochBody, runIters_accPixel]

theorem epochBody_accFeature (cfg : Config) (numBatches epoch : ℕ) (batches : List Batch)
    (s : TState) :
    (epochBody cfg numBatches epoch batches s).1.accFeature =
      batches.foldl (fun ra b => ra.update b.featureLoss (b.batchSize : ℚ)) s.accFeature := by
  simp [epochBody, runIters_accFeature]

theorem epochBody_accTime (cfg : Config) (numBatches epoch : ℕ) (batches : List Batch)
    (s : TState) :
    (epochBody cfg numBatches epoch batches s).1.accTime =
      batches.foldl (fun ra b => ra.update b.iterTime 1) s.accTime := by
  simp [epochBody, runIters_accTime]

theorem epochBody_wandbStep (cfg : Config) (numBatches epoch : ℕ) (batches : List Batch)
    (s : TState) :
    (epochBody cfg numBatches epoch batches s).1.wandbStep = s.wandbStep + 1 := by
  simp [epochBody, runIters_wandbStep]

theorem runEpochs_accPixel (cfg : Config) (numBatches : ℕ) (n e : ℕ)
    (data : List (List Batch)) (s : TState) :
    (runEpochs cfg numBatches e n data s).1.accPixel =
      (usedBatches n data).foldl
        (fun ra b => ra.update b.perPixelLoss (b.batchSize : ℚ)) s.accPixel := by
  induction n generalizing e data s with
  | zero => rfl
  | succ m ih =>
    simp only [runEpochs, ih, epochBody_accPixel, usedBatches, List.foldl_append]

theorem runEpochs_accFeature (cfg : Config) (numBatches : ℕ) (n e : ℕ)
    (data : List (List Batch)) (s : TState) :
    (runEpochs cfg numBatches e n data s).1.accFeature =
      (usedBatches n data).foldl
        (fun ra b => ra.update b.featureLoss (b.batchSize : ℚ)) s.accFeature := by
  induction n generalizing e data s with
  | zero => rfl
  | succ m ih =>
    simp only [runEpochs, ih, epochBody_accFeature, usedBatches, List.foldl_append]

/-- A sequence of accumulator updates with nonnegative weights never lowers
the count. -/
theorem RunningAverage.count_le_foldl (batches : List Batch) (g w : Batch → ℚ)
    (hw : ∀ b, 0 ≤ w b) (ra : RunningAverage) :
    ra.count ≤ (batches.foldl (fun ra b => ra.update (g b) (w b)) ra).count := by
  induction batches generalizing ra with
  | nil => exact le_rfl
  | cons b rest ih =>
    refine le_trans ?_ (ih (ra.update (g b) (w b)))
    simp only [RunningAverage.update]
    exact le_add_of_nonneg_right (hw b)

/-! ## Claim C3 -/

/-- C3: stepping the learning-rate schedule start_epoch times synthetically
before the main loop (what initState does for a resumed run) yields exactly
the schedule state that a fresh run (start_epoch = 0) with the same base lr
and step size reaches after training through that many real epochs; and in
particular with start_epoch = 3 and step size 2 the pre-training learning
rate is base_lr * 0.1 (exactly one decay applied). -/
theorem c3_lr_resume_equiv :
    (∀ (cfg cfgF : Config) (numBatches : ℕ) (data : List (List Batch)),
      cfgF.lr = cfg.lr → cfgF.lr_scheduler_step_size = cfg.lr_scheduler_step_size →
      cfgF.start_epoch = 0 → cfgF.epochs = cfg.start_epoch →
      (initState cfg numBatches).sched = (trainAndEvaluate cfgF numBatches data).1.sched)
    ∧ (∀ (cfg : Config) (numBatches : ℕ),
      cfg.start_epoch = 3 → cfg.lr_scheduler_step_size = 2 →
      (initState cfg numBatches).sched.lr = cfg.lr * (1 / 10)) := by
  constructor
  · intro cfg cfgF numBatches data h1 h2 h3 h4
    show _ = (runEpochs cfgF numBatches cfgF.start_epoch (cfgF.epochs - cfgF.start_epoch)
      data (initState cfgF numBatches)).1.sched
    rw [runEpochs_sched]
    simp only [initState, StepLR.foldl_range_step, h1, h2, h3, h4]
    simp
  · intro cfg numBatches h1 h2
    simp only [initState, StepLR.foldl_range_step, h1, h2]
    have hbase := StepLR.iterate_step_base 3 (StepLR.mkInit cfg.lr 2)
    have hlast := StepLR.iterate_step_lastEpoch 3 (StepLR.mkInit cfg.lr 2)
    rw [StepLR.lr, hbase.1, hbase.2.1, hbase.2.2, hlast]
    norm_num [StepLR.mkInit]

/-- Witness for C3 at a concrete resumed configuration. -/
theorem c3_lr_resume_equiv_witness :
    ((initState ⟨2, 1, 2, 3, 3, 1, 1, 2⟩ 1).sched =
      (trainAndEvaluate ⟨2, 1, 2, 0, 3, 1, 1, 2⟩ 1 []).1.sched)
    ∧ (initState ⟨2, 1, 2, 3, 3, 1, 1, 2⟩ 1).sched.lr = 1 * (1 / 10) :=
  ⟨c3_lr_resume_equiv.1 ⟨2, 1, 2, 3, 3, 1, 1, 2⟩ ⟨2, 1, 2, 0, 3, 1, 1, 2⟩ 1 [] rfl rfl rfl rfl,
   c3_lr_resume_equiv.2 ⟨2, 1, 2, 3, 3, 1, 1, 2⟩ 1 rfl rfl⟩

/-! ## Claim C2 -/

/-- A batch observation with the given per-pixel loss and neutral values in
every other input field. -/
def plainBatch (pl : ℚ) : Batch := ⟨1, pl, 0, 0, 0, [], 0, 0, []⟩

/-- C2 as amended: the per-pixel-loss and feature-loss accumulators are
instantiated exactly once, before the epoch loop (with count 0 there), and
are never re-instantiated per epoch: their counts are monotonically
non-decreasing through every iteration and epoch of the whole run, and the
final accumulator state is the fold of the updates of all batches of all
epochs of the run, accumulating across epoch boundaries. -/
theorem c2_accumulators_run_scoped :
    (∀ (cfg : Config) (numBatches : ℕ),
        (initState cfg numBatches).accPixel = RunningAverage.init ∧
        (initState cfg numBatches).accFeature = RunningAverage.init)
    ∧ (∀ (cfg : Config) (numBatches epoch iteration : ℕ) (b : Batch) (s : TState),
        s.accPixel.count ≤ (iterBody cfg numBatches epoch iteration b s).1.accPixel.count ∧
        s.accFeature.count ≤ (iterBody cfg numBatches epoch iteration b s).1.accFeature.count)
    ∧ (∀ (cfg : Config) (numBatches epoch : ℕ) (batches : List Batch) (s : TState),
        s.accPixel.count ≤ (epochBody cfg numBatches epoch batches s).1.accPixel.count ∧
        s.accFeature.count ≤ (epochBody cfg numBatches epoch batches s).1.accFeature.count)
    ∧ (∀ (cfg : Config) (numBatches : ℕ) (data : List (List Batch)),
        (trainAndEvaluate cfg numBatches data).1.accPixel =
          (usedBatches (cfg.epochs - cfg.start_epoch) data).foldl
            (fun ra b => ra.update b.perPixelLoss (b.batchSize : ℚ)) RunningAverage.init ∧
        (trainAndEvaluate cfg numBatches data).1.accFeature =
          (usedBatches (cfg.epochs - cfg.start_epoch) data).foldl
            (fun ra b => ra.update b.featureLoss (b.batchSize : ℚ)) RunningAverage.init) := by
  refine ⟨fun cfg numBatches => ⟨rfl, rfl⟩, ?_, ?_, ?_⟩
  · intro cfg numBatches epoch iteration b s
    constructor
    · rw [iterBody_accPixel, RunningAverage.update]
      exact le_add_of_nonneg_right (Nat.cast_nonneg _)
    · rw [iterBody_accFeature, RunningAverage.update]
      exact le_add_of_nonneg_right (Nat.cast_nonneg _)
  · intro cfg numBatches epoch batches s
    constructor
    · rw [epochBody_accPixel]
      exact RunningAverage.count_le_foldl batches _ _ (fun b => Nat.cast_nonneg _) _
    · rw [epochBody_accFeature]
      exact RunningAverage.count_le_foldl batches _ _ (fun b => Nat.cast_nonneg _) _
  · intro cfg numBatches data
    constructor
    · show (runEpochs cfg numBatches _ _ _ _).1.accPixel = _
      rw [runEpochs_accPixel]
      rfl
    · show (runEpochs cfg numBatches _ _ _ _).1.accFeature = _
      rw [runEpochs_accFeature]
      rfl

/-- Counterexample to C2 as stated: in a two-epoch run (one one-sample batch
per epoch, losses 0 then 1), the average per-pixel loss logged during the
second epoch is 1/2 — it covers both epochs' batches, not only the second
epoch's (whose own average would be 1) — and the accumulator enters the
second epoch with count 1 and leaves the run with count 2, so it is not
re-instantiated with count 0 at the start of every epoch. -/
theorem c2_counterexample :
    ((trainAndEvaluate ⟨1, 1, 1, 0, 2, 1, 5, 1⟩ 1 [[plainBatch 0], [plainBatch 1]]).2.filter
        (isScalarKey LogKey.avgPerPixelLoss) =
      [Event.scalarLog LogKey.avgPerPixelLoss 0 0,
       Event.scalarLog LogKey.avgPerPixelLoss (1 / 2) 1])
    ∧ ((1 : ℚ) / 2 ≠ 1)
    ∧ (epochBody ⟨1, 1, 1, 0, 2, 1, 5, 1⟩ 1 0 [plainBatch 0]
        (initState ⟨1, 1, 1, 0, 2, 1, 5, 1⟩ 1)).1.accPixel.count = 1
    ∧ (trainAndEvaluate ⟨1, 1, 1, 0, 2, 1, 5, 1⟩ 1
        [[plainBatch 0], [plainBatch 1]]).1.accPixel.count = 2 := by
  refine ⟨?_, by norm_num, ?_, ?_⟩
  · norm_num [trainAndEvaluate, runEpochs, epochBody, runIters, iterBody, metricsBlock,
      bestTestUpdate, writeMetricsEvents, comparePredictionsEvents, initState,
      syntheticSchedEvents, plainBatch, RunningAverage.update, RunningAverage.avg,
      RunningAverage.init, isScalarKey, List.filter_cons]
    simp
  · norm_num [epochBody, runIters, iterBody, metricsBlock, bestTestUpdate, initState,
      plainBatch, RunningAverage.update, RunningAverage.init]
  · norm_num [trainAndEvaluate, runEpochs, epochBody, runIters, iterBody, metricsBlock,
      bestTestUpdate, initState, syntheticSchedEvents, plainBatch,
      RunningAverage.update, RunningAverage.init]

/-! ## Checkpoint events of the metrics block -/

theorem filter_writeMetrics_eq_nil (p : Event → Bool)
    (h : ∀ k v st, p (Event.scalarLog k v st) = false)
    (tr : Bool) (l : List (String × ℚ)) (st : ℤ) :
    (writeMetricsEvents tr l st).filter p = [] := by
  induction l with
  | nil => rfl
  | cons kv rest ih =>
    simp only [writeMetricsEvents, List.map_cons, List.filter_cons, h]
    simpa [writeMetricsEvents] using ih

/-- The save_checkpoint invocations of one metrics block: exactly one, with
the is_best flag set precisely when the block's training rmse strictly
improves on the tracker (given that the block is entered with is_best
False, as every reachable block is). -/
theorem metricsBlock_ckpt (b : Batch) (s : TState) (h : s.isBest = false) :
    (metricsBlock b s).2.filter isCkpt =
      [Event.saveCheckpoint (decide (b.trainRmse < s.bestRmse)) s.wandbStep] := by
  by_cases h1 : b.trainRmse < s.bestRmse <;> by_cases h2 : b.testRmse < s.bestTestRmse <;>
    simp [metricsBlock, bestTestUpdate, comparePredictionsEvents, isCkpt, h, h1, h2,
      List.filter_append, List.filter_cons,
      filter_writeMetrics_eq_nil isCkpt (fun _ _ _ => rfl)]

/-! ## Claim C1 -/

/-- A batch observation carrying given training and validation rmse values
and neutral values in every other input field. -/
def rmseBatch (tr te : ℚ) : Batch := ⟨1, 0, 0, 0, tr, [], 0, te, []⟩

theorem runMetricsBlocks_bestRmse (l : List Batch) (s : TState) :
    (runMetricsBlocks l s).1.bestRmse = l.foldl (fun m b => min m b.trainRmse) s.bestRmse := by
  induction l generalizing s with
  | nil => rfl
  | cons b rest ih => simp [runMetricsBlocks, ih]

theorem runMetricsBlocks_bestTestRmse (l : List Batch) (s : TState) :
    (runMetricsBlocks l s).1.bestTestRmse =
      l.foldl (fun m b => min m b.testRmse) s.bestTestRmse := by
  induction l generalizing s with
  | nil => rfl
  | cons b rest ih => simp [runMetricsBlocks, ih]

/-- C1 as amended: the best trackers start at the sentinel 9e20; after any
sequence of metrics-log blocks the best-train tracker equals the running
minimum (from its prior value) of the training rmse values observed at those
blocks, and likewise for the best-validation tracker; both trackers are
monotonically non-increasing block over block; save_checkpoint is invoked at
EVERY metrics-log block — not only at new minima — with its is_best flag
true exactly when the block's training rmse strictly improves the tracker,
so only the is_best-flagged best-checkpoint overwrite happens exactly at new
strict minima of the training rmse; and the best-validation branch performs
no checkpoint invocation of its own. -/
theorem c1_best_tracker_amended :
    (∀ (cfg : Config) (numBatches : ℕ),
        (initState cfg numBatches).bestRmse = 9 * 10 ^ 20 ∧
        (initState cfg numBatches).bestTestRmse = 9 * 10 ^ 20 ∧
        (initState cfg numBatches).isBest = false)
    ∧ (∀ (l : List Batch) (s : TState),
        (runMetricsBlocks l s).1.bestRmse =
          l.foldl (fun m b => min m b.trainRmse) s.bestRmse ∧
        (runMetricsBlocks l s).1.bestTestRmse =
          l.foldl (fun m b => min m b.testRmse) s.bestTestRmse)
    ∧ (∀ (b : Batch) (s : TState),
        (metricsBlock b s).1.bestRmse ≤ s.bestRmse ∧
        (metricsBlock b s).1.bestTestRmse ≤ s.bestTestRmse)
    ∧ (∀ (b : Batch) (s : TState), s.isBest = false →
        (metricsBlock b s).2.filter isCkpt =
          [Event.saveCheckpoint (decide (b.trainRmse < s.bestRmse)) s.wandbStep])
    ∧ (∀ (r : ℚ) (s : TState), (bestTestUpdate r s).2.filter isCkpt = []) := by
  refine ⟨fun cfg numBatches => ⟨rfl, rfl, rfl⟩, ?_, ?_, metricsBlock_ckpt, ?_⟩
  · exact fun l s => ⟨runMetricsBlocks_bestRmse l s, runMetricsBlocks_bestTestRmse l s⟩
  · intro b s
    exact ⟨by simp, by simp⟩
  · intro r s
    by_cases h : r < s.bestTestRmse <;> simp [bestTestUpdate, isCkpt, h, List.filter_cons]

/-- Witness for C1: from the freshly initialised state, a block whose
training rmse 5 beats the sentinel invokes save_checkpoint with is_best
true. -/
theorem c1_best_tracker_amended_witness :
    (metricsBlock (rmseBatch 5 5) (initState ⟨1, 1, 1, 0, 1, 1, 1, 1⟩ 1)).2.filter isCkpt =
      [Event.saveCheckpoint true (-1)] := by
  have h := c1_best_tracker_amended.2.2.2.1 (rmseBatch 5 5)
    (initState ⟨1, 1, 1, 0, 1, 1, 1, 1⟩ 1) rfl
  rw [h]
  have hlt : (rmseBatch 5 5).trainRmse < (initState ⟨1, 1, 1, 0, 1, 1, 1, 1⟩ 1).bestRmse := by
    norm_num [rmseBatch, initState]
  rw [decide_eq_true hlt]
  norm_num [initState]

/-- Counterexample to C1 as stated: in two consecutive metrics-log blocks
with training rmse 5 then 7 (and validation rmse 5 then 3), the second
block's training rmse 7 is NOT a new strict minimum, yet a save_checkpoint
invocation still occurs there (with is_best False) — checkpoint writes are
not triggered exactly at new training minima; and the second block updates
best_test_rmse to 3 while containing no is_best-flagged checkpoint write —
tracker updates are not each paired with a best-checkpoint write. -/
theorem c1_counterexample :
    (¬ (rmseBatch 7 3).trainRmse <
        (metricsBlock (rmseBatch 5 5) (initState ⟨1, 1, 1, 0, 1, 1, 1, 1⟩ 1)).1.bestRmse)
    ∧ (metricsBlock (rmseBatch 7 3)
        (metricsBlock (rmseBatch 5 5) (initState ⟨1, 1, 1, 0, 1, 1, 1, 1⟩ 1)).1).2.filter isCkpt =
      [Event.saveCheckpoint false (-1)]
    ∧ (metricsBlock (rmseBatch 7 3)
        (metricsBlock (rmseBatch 5 5) (initState ⟨1, 1, 1, 0, 1, 1, 1, 1⟩ 1)).1).1.bestTestRmse = 3
    ∧ Event.summarySet SummaryKey.bestTestRmse 3 ∈
        (metricsBlock (rmseBatch 7 3)
          (metricsBlock (rmseBatch 5 5) (initState ⟨1, 1, 1, 0, 1, 1, 1, 1⟩ 1)).1).2
    ∧ Event.saveCheckpoint true (-1) ∉
        (metricsBlock (rmseBatch 7 3)
          (metricsBlock (rmseBatch 5 5) (initState ⟨1, 1, 1, 0, 1, 1, 1, 1⟩ 1)).1).2 := by
  refine ⟨?_, ?_, ?_, ?_, ?_⟩ <;>
    (norm_num [metricsBlock, bestTestUpdate, writeMetricsEvents, comparePredictionsEvents,
      initState, rmseBatch, isCkpt, List.filter_append, List.filter_cons]
     try simp)

/-! ## Claim C4 -/

/-- C4: a read on a freshly instantiated RunningAverage reports the defined
empty-accumulator condition (none) rather than a numeric value, and after
any nonempty sequence of update(value, weight) calls with positive weights a
read returns the weighted mean, the sum of value*weight over the sum of
weight. -/
theorem c4_running_average :
    RunningAverage.init.read = none
    ∧ ∀ (l : List (ℚ × ℚ)), l ≠ [] → (∀ p ∈ l, 0 < p.2) →
        (RunningAverage.applyUpdates l).read =
          some ((l.map (fun p => p.1 * p.2)).sum / (l.map Prod.snd).sum) := by
  constructor
  · rfl
  · intro l hne hpos
    have hsum : 0 < (l.map Prod.snd).sum := by
      apply List.sum_pos
      · intro x hx
        rcases List.mem_map.mp hx with ⟨p, hp, rfl⟩
        exact hpos p hp
      · simpa using hne
    rw [RunningAverage.applyUpdates_eq, RunningAverage.read]
    rw [if_neg (by exact ne_of_gt hsum)]

/-- Witness for C4: two weighted updates produce the weighted mean. -/
theorem c4_running_average_witness :
    (RunningAverage.applyUpdates [((3 : ℚ), (1 : ℚ)), (5, 1)]).read = some 4 := by
  have h := c4_running_average.2 [((3 : ℚ), (1 : ℚ)), (5, 1)] (by decide) (by decide)
  rw [h]
  norm_num

/-! ## Claim C8 -/

/-- C8: when the validation rmse strictly improves on best_test_rmse at a
metrics-log iteration, the update touches exactly the best_test_rmse field
(all other trainer state — best_rmse, is_best, wandb step, accumulators,
schedule, model and optimizer — is left unchanged) and emits exactly the
run-summary record, no checkpoint write; and the is_best flag of the
block's single checkpoint invocation is a function of the training-rmse
comparison only, so checkpoint flags are tied only to training-set
improvement. -/
theorem c8_validation_update_frame :
    ∀ (r : ℚ) (s : TState), r < s.bestTestRmse →
      (bestTestUpdate r s).1 = { s with bestTestRmse := r }
      ∧ (bestTestUpdate r s).2 = [Event.summarySet SummaryKey.bestTestRmse r]
      ∧ (bestTestUpdate r s).1.bestRmse = s.bestRmse
      ∧ (bestTestUpdate r s).1.modelVersion = s.modelVersion
      ∧ (bestTestUpdate r s).1.optimVersion = s.optimVersion
      ∧ (∀ (b : Batch) (s2 : TState), s2.isBest = false →
          (metricsBlock b s2).2.filter isCkpt =
            [Event.saveCheckpoint (decide (b.trainRmse < s2.bestRmse)) s2.wandbStep]) := by
  intro r s h
  refine ⟨?_, ?_, ?_, ?_, ?_, fun b s2 h2 => metricsBlock_ckpt b s2 h2⟩ <;>
    simp [bestTestUpdate, h]

/-- Witness for C8 at a concrete improving validation rmse. -/
theorem c8_validation_update_frame_witness :
    (bestTestUpdate 3 (initState ⟨1, 1, 1, 0, 1, 1, 1, 1⟩ 1)).2 =
      [Event.summarySet SummaryKey.bestTestRmse 3] :=
  (c8_validation_update_frame 3 (initState ⟨1, 1, 1, 0, 1, 1, 1, 1⟩ 1)
    (by norm_num [initState])).2.1

/-! ## Claim C7 -/

theorem filter_metricsBlock_eq_nil (p : Event → Bool) (b : Batch) (s : TState)
    (h1 : ∀ k v st, p (Event.scalarLog (LogKey.train k) v st) = false)
    (h2 : ∀ k v st, p (Event.scalarLog (LogKey.validation k) v st) = false)
    (h3 : ∀ v st, p (Event.scalarLog LogKey.avgValidationLoss v st) = false)
    (h4 : ∀ k st, p (Event.imageLog k st) = false)
    (h5 : ∀ k v, p (Event.summarySet k v) = false)
    (h6 : ∀ fl st, p (Event.saveCheckpoint fl st) = false) :
    (metricsBlock b s).2.filter p = [] := by
  have hw1 : ∀ (l : List (String × ℚ)) (st : ℤ), (writeMetricsEvents true l st).filter p = [] := by
    intro l st
    induction l with
    | nil => rfl
    | cons kv rest ih =>
      simp only [writeMetricsEvents, List.map_cons, List.filter_cons, if_true,
        Bool.true_eq_false, h1]
      simpa [writeMetricsEvents] using ih
  have hw2 : ∀ (l : List (String × ℚ)) (st : ℤ),
      (writeMetricsEvents false l st).filter p = [] := by
    intro l st
    induction l with
    | nil => rfl
    | cons kv rest ih =>
      simp only [writeMetricsEvents, List.map_cons, List.filter_cons, if_false,
        Bool.false_eq_true, h2]
      simpa [writeMetricsEvents] using ih
  by_cases hb1 : b.trainRmse < s.bestRmse <;> by_cases hb2 : b.testRmse < s.bestTestRmse <;>
    simp [metricsBlock, bestTestUpdate, comparePredictionsEvents, hb1, hb2,
      List.filter_append, List.filter_cons, hw1, hw2, h3, h4, h5, h6]

theorem filter_metricsBlock_pixel (b : Batch) (s : TState) :
    (metricsBlock b s).2.filter (isScalarKey LogKey.avgPerPixelLoss) = [] :=
  filter_metricsBlock_eq_nil _ b s (fun _ _ _ => rfl) (fun _ _ _ => rfl) (fun _ _ => rfl)
    (fun _ _ => rfl) (fun _ _ => rfl) (fun _ _ => rfl)

theorem filter_metricsBlock_feature (b : Batch) (s : TState) :
    (metricsBlock b s).2.filter (isScalarKey LogKey.avgFeatureLoss) = [] :=
  filter_metricsBlock_eq_nil _ b s (fun _ _ _ => rfl) (fun _ _ _ => rfl) (fun _ _ => rfl)
    (fun _ _ => rfl) (fun _ _ => rfl) (fun _ _ => rfl)

/-- C7: with training_loss_log_interval = 1 every training iteration emits
exactly one running-average per-pixel-loss scalar log and exactly one
running-average feature-loss scalar log — no more and no fewer, whatever the
other interval, position and state. -/
theorem c7_loss_log_per_batch :
    ∀ (cfg : Config) (numBatches epoch iteration : ℕ) (b : Batch) (s : TState),
      cfg.training_loss_log_interval = 1 →
      countEvents (isScalarKey LogKey.avgPerPixelLoss)
          (iterBody cfg numBatches epoch iteration b s).2 = 1
      ∧ countEvents (isScalarKey LogKey.avgFeatureLoss)
          (iterBody cfg numBatches epoch iteration b s).2 = 1 := by
  intro cfg numBatches epoch iteration b s h
  have hmod : iteration % cfg.training_loss_log_interval = 0 := by
    rw [h]; exact Nat.mod_one iteration
  constructor <;>
  · by_cases h2 : iteration % cfg.other_metrics_log_interval = 0 <;>
      simp [iterBody, countEvents, hmod, h2, isScalarKey, List.filter_append,
        List.filter_cons, filter_metricsBlock_pixel, filter_metricsBlock_feature]

/-- Witness for C7 at a concrete configuration and iteration. -/
theorem c7_loss_log_per_batch_witness :
    countEvents (isScalarKey LogKey.avgPerPixelLoss)
        (iterBody ⟨1, 1, 1, 0, 1, 1, 2, 1⟩ 2 0 1 (plainBatch 1)
          (initState ⟨1, 1, 1, 0, 1, 1, 2, 1⟩ 2)).2 = 1 :=
  (c7_loss_log_per_batch ⟨1, 1, 1, 0, 1, 1, 2, 1⟩ 2 0 1 (plainBatch 1)
    (initState ⟨1, 1, 1, 0, 1, 1, 2, 1⟩ 2) rfl).1

/-! ## Claim C10 -/

/-- C10: in every epoch with at least one batch, for any positive logging
intervals, the first iteration (index 0) satisfies both interval checks
(0 mod n = 0), so the epoch performs at least one running-average
training-loss log, at least one training-metrics log, at least one
validation-metrics log with visualization logging, and at least one
save_checkpoint invocation — however large the intervals are. -/
theorem c10_first_iteration_always_logs :
    ∀ (cfg : Config) (numBatches epoch : ℕ) (b : Batch) (rest : List Batch) (s : TState),
      0 < cfg.training_loss_log_interval → 0 < cfg.other_metrics_log_interval →
      (∃ v st, Event.scalarLog LogKey.avgPerPixelLoss v st ∈
          (epochBody cfg numBatches epoch (b :: rest) s).2)
      ∧ (∃ v st, Event.scalarLog (LogKey.train "rmse") v st ∈
          (epochBody cfg numBatches epoch (b :: rest) s).2)
      ∧ (∃ v st, Event.scalarLog (LogKey.validation "rmse") v st ∈
          (epochBody cfg numBatches epoch (b :: rest) s).2)
      ∧ (∃ st, Event.imageLog LogKey.sampleImages st ∈
          (epochBody cfg numBatches epoch (b :: rest) s).2)
      ∧ (∃ fl st, Event.saveCheckpoint fl st ∈
          (epochBody cfg numBatches epoch (b :: rest) s).2) := by
  intro cfg numBatches epoch b rest s h1 h2
  have hm1 : (0 : ℕ) % cfg.training_loss_log_interval = 0 := Nat.zero_mod _
  have hm2 : (0 : ℕ) % cfg.other_metrics_log_interval = 0 := Nat.zero_mod _
  refine ⟨⟨(s.accPixel.update b.perPixelLoss (b.batchSize : ℚ)).avg, s.wandbStep + 1, ?_⟩,
          ⟨b.trainRmse, s.wandbStep + 1, ?_⟩,
          ⟨b.testRmse, s.wandbStep + 1, ?_⟩,
          ⟨s.wandbStep + 1, ?_⟩, ?_⟩
  · simp [epochBody, runIters, iterBody, metricsBlock, bestTestUpdate, writeMetricsEvents,
      comparePredictionsEvents, hm1, hm2, List.mem_append]
  · simp [epochBody, runIters, iterBody, metricsBlock, bestTestUpdate, writeMetricsEvents,
      comparePredictionsEvents, hm1, hm2, List.mem_append]
  · simp [epochBody, runIters, iterBody, metricsBlock, bestTestUpdate, writeMetricsEvents,
      comparePredictionsEvents, hm1, hm2, List.mem_append]
  · simp [epochBody, runIters, iterBody, metricsBlock, bestTestUpdate, writeMetricsEvents,
      comparePredictionsEvents, hm1, hm2, List.mem_append]
  · by_cases hb : b.trainRmse < s.bestRmse
    · refine ⟨true, s.wandbStep + 1, ?_⟩
      simp [epochBody, runIters, iterBody, metricsBlock, bestTestUpdate, writeMetricsEvents,
        comparePredictionsEvents, hm1, hm2, hb, List.mem_append]
    · refine ⟨s.isBest, s.wandbStep + 1, ?_⟩
      simp [epochBody, runIters, iterBody, metricsBlock, bestTestUpdate, writeMetricsEvents,
        comparePredictionsEvents, hm1, hm2, hb, List.mem_append]

/-- Witness for C10 at a concrete configuration. -/
theorem c10_first_iteration_always_logs_witness :
    ∃ fl st, Event.saveCheckpoint fl st ∈
      (epochBody ⟨1, 1, 1, 0, 1, 7, 9, 1⟩ 1 0 [plainBatch 1]
        (initState ⟨1, 1, 1, 0, 1, 7, 9, 1⟩ 1)).2 :=
  (c10_first_iteration_always_logs ⟨1, 1, 1, 0, 1, 7, 9, 1⟩ 1 0 (plainBatch 1) []
    (initState ⟨1, 1, 1, 0, 1, 7, 9, 1⟩ 1) (by norm_num) (by norm_num)).2.2.2.2

/-! ## Claim C5 -/

theorem filter_metricsBlock_fb (b : Batch) (s : TState) :
    (metricsBlock b s).2.filter isFB = [] :=
  filter_metricsBlock_eq_nil _ b s (fun _ _ _ => rfl) (fun _ _ _ => rfl) (fun _ _ => rfl)
    (fun _ _ => rfl) (fun _ _ => rfl) (fun _ _ => rfl)

theorem filter_metricsBlock_lr (b : Batch) (s : TState) :
    (metricsBlock b s).2.filter isLRStepEvent = [] :=
  filter_metricsBlock_eq_nil _ b s (fun _ _ _ => rfl) (fun _ _ _ => rfl) (fun _ _ => rfl)
    (fun _ _ => rfl) (fun _ _ => rfl) (fun _ _ => rfl)

theorem filter_metricsBlock_saveEpoch (b : Batch) (s : TState) :
    (metricsBlock b s).2.filter isSaveEpochEvent = [] :=
  filter_metricsBlock_eq_nil _ b s (fun _ _ _ => rfl) (fun _ _ _ => rfl) (fun _ _ => rfl)
    (fun _ _ => rfl) (fun _ _ => rfl) (fun _ _ => rfl)

theorem filter_metricsBlock_core (b : Batch) (s : TState) :
    (metricsBlock b s).2.filter isCoreEvent = [] :=
  filter_metricsBlock_eq_nil _ b s (fun _ _ _ => rfl) (fun _ _ _ => rfl) (fun _ _ => rfl)
    (fun _ _ => rfl) (fun _ _ => rfl) (fun _ _ => rfl)

/-- C5: with epochs = 1, start_epoch = 0, batch_size = 2 and a 4-sample
training set split into two batches, one run performs the
forward/backward/optimizer-step path exactly twice, steps the learning-rate
schedule exactly once — after both batches, as the ordered core-event trace
shows — and writes exactly one epoch checkpoint, tagged epoch index 0,
whatever the batch contents (so unconditionally of performance). -/
theorem c5_single_epoch_scenario :
    ∀ (cfg : Config) (b1 b2 : Batch),
      cfg.epochs = 1 → cfg.start_epoch = 0 → cfg.batch_size = 2 →
      b1.batchSize = 2 → b2.batchSize = 2 →
      countEvents isFB (trainAndEvaluate cfg 2 [[b1, b2]]).2 = 2
      ∧ countEvents isLRStepEvent (trainAndEvaluate cfg 2 [[b1, b2]]).2 = 1
      ∧ (trainAndEvaluate cfg 2 [[b1, b2]]).2.filter isSaveEpochEvent = [Event.saveEpoch 0]
      ∧ (trainAndEvaluate cfg 2 [[b1, b2]]).2.filter isCoreEvent =
          [Event.forwardBackward 0 0, Event.forwardBackward 0 1, Event.lrStep] := by
  intro cfg b1 b2 h1 h2 h3 hb1 hb2
  have hm0t : (0 : ℕ) % cfg.training_loss_log_interval = 0 := Nat.zero_mod _
  have hm0o : (0 : ℕ) % cfg.other_metrics_log_interval = 0 := Nat.zero_mod _
  refine ⟨?_, ?_, ?_, ?_⟩ <;>
  · by_cases h4 : 1 % cfg.training_loss_log_interval = 0 <;>
      by_cases h5 : 1 % cfg.other_metrics_log_interval = 0 <;>
        simp [trainAndEvaluate, syntheticSchedEvents, runEpochs, epochBody, runIters,
          iterBody, countEvents, h1, h2, hm0t, hm0o, h4, h5, List.filter_append,
          List.filter_cons, filter_metricsBlock_fb, filter_metricsBlock_lr,
          filter_metricsBlock_saveEpoch, filter_metricsBlock_core, isFB, isLRStepEvent,
          isSaveEpochEvent, isCoreEvent]

/-- Witness for C5 at a concrete configuration and pair of 2-sample
batches. -/
theorem c5_single_epoch_scenario_witness :
    (trainAndEvaluate ⟨2, 1, 1, 0, 1, 1, 1, 1⟩ 2
        [[⟨2, 1, 1, 1, 1, [], 1, 1, []⟩, ⟨2, 1, 1, 1, 1, [], 1, 1, []⟩]]).2.filter isCoreEvent =
      [Event.forwardBackward 0 0, Event.forwardBackward 0 1, Event.lrStep] :=
  (c5_single_epoch_scenario ⟨2, 1, 1, 0, 1, 1, 1, 1⟩ ⟨2, 1, 1, 1, 1, [], 1, 1, []⟩
    ⟨2, 1, 1, 1, 1, [], 1, 1, []⟩ rfl rfl rfl rfl rfl).2.2.2

/-! ## Claim C9 -/

/-- The wandb steps carried by the scalar and image log events of a trace,
in emission order. -/
def stepsIn (l : List Event) : List ℤ := l.filterMap Event.stepOf

/-- Every scalar or image log event of the trace carries step c. -/
def stepsAll (c : ℤ) (l : List Event) : Prop := ∀ x ∈ stepsIn l, x = c

theorem stepsIn_append (l1 l2 : List Event) :
    stepsIn (l1 ++ l2) = stepsIn l1 ++ stepsIn l2 :=
  List.filterMap_append l1 l2 Event.stepOf

theorem stepsAll_append {c : ℤ} {l1 l2 : List Event}
    (h1 : stepsAll c l1) (h2 : stepsAll c l2) : stepsAll c (l1 ++ l2) := by
  intro x hx
  rw [stepsIn_append, List.mem_append] at hx
  exact hx.elim (h1 x) (h2 x)

theorem stepsIn_writeMetrics (tr : Bool) (l : List (String × ℚ)) (st : ℤ) :
    stepsIn (writeMetricsEvents tr l st) = List.replicate l.length st := by
  induction l with
  | nil => rfl
  | cons kv rest ih =>
    cases tr <;>
      simp_all [stepsIn, writeMetricsEvents, List.filterMap_cons, Event.stepOf,
        List.replicate_succ]

theorem stepsAll_writeMetrics (tr : Bool) (l : List (String × ℚ)) (st : ℤ) :
    stepsAll st (writeMetricsEvents tr l st) := by
  intro x hx
  rw [stepsIn_writeMetrics] at hx
  exact List.eq_of_mem_replicate hx

theorem stepsAll_of_stepsIn_nil {l : List Event} (h : stepsIn l = []) (c : ℤ) :
    stepsAll c l := by
  intro x hx
  rw [h] at hx
  exact absurd hx (List.not_mem_nil x)

theorem stepsAll_compare (st : ℤ) : stepsAll st (comparePredictionsEvents st) := by
  intro x hx
  have h4 : stepsIn (comparePredictionsEvents st) = [st, st, st, st] := rfl
  rw [h4] at hx
  simp only [List.mem_cons, List.not_mem_nil, or_false] at hx
  rcases hx with rfl | rfl | rfl | rfl <;> rfl

theorem stepsAll_single_scalar (k : LogKey) (v : ℚ) (st : ℤ) :
    stepsAll st [Event.scalarLog k v st] := by
  intro x hx
  have h1 : stepsIn [Event.scalarLog k v st] = [st] := rfl
  rw [h1] at hx
  simp only [List.mem_cons, List.not_mem_nil, or_false] at hx
  exact hx

theorem stepsAll_pair_scalar (k1 k2 : LogKey) (v1 v2 : ℚ) (st : ℤ) :
    stepsAll st [Event.scalarLog k1 v1 st, Event.scalarLog k2 v2 st] := by
  intro x hx
  have h2 : stepsIn [Event.scalarLog k1 v1 st, Event.scalarLog k2 v2 st] = [st, st] := rfl
  rw [h2] at hx
  simp only [List.mem_cons, List.not_mem_nil, or_false] at hx
  rcases hx with rfl | rfl <;> rfl

theorem stepsAll_metricsBlock (b : Batch) (s : TState) :
    stepsAll s.wandbStep (metricsBlock b s).2 := by
  by_cases hb1 : b.trainRmse < s.bestRmse <;> by_cases hb2 : b.testRmse < s.bestTestRmse <;>
  · simp only [metricsBlock, bestTestUpdate, hb1, hb2, if_true, if_false]
    exact stepsAll_append
      (stepsAll_append
        (stepsAll_append
          (stepsAll_append
            (stepsAll_append
              (stepsAll_append (stepsAll_writeMetrics true _ _) (stepsAll_compare _))
              (stepsAll_single_scalar _ _ _))
            (stepsAll_writeMetrics false _ _))
          (stepsAll_of_stepsIn_nil (by rfl) _))
        (stepsAll_of_stepsIn_nil (by rfl) _))
      (stepsAll_of_stepsIn_nil (by rfl) _)

theorem stepsAll_iterBody (cfg : Config) (numBatches epoch iteration : ℕ) (b : Batch)
    (s : TState) :
    stepsAll s.wandbStep (iterBody cfg numBatches epoch iteration b s).2 := by
  by_cases h1 : iteration % cfg.training_loss_log_interval = 0 <;>
    by_cases h2 : iteration % cfg.other_metrics_log_interval = 0 <;>
  · simp only [iterBody, h1, h2, if_true, if_false]
    refine stepsAll_append (stepsAll_append (stepsAll_of_stepsIn_nil (by rfl) _) ?_) ?_
    · first
        | exact stepsAll_pair_scalar _ _ _ _ _
        | exact stepsAll_of_stepsIn_nil (by rfl) _
    · first
        | exact stepsAll_metricsBlock b _
        | exact stepsAll_of_stepsIn_nil (by rfl) _

theorem stepsAll_runIters (cfg : Config) (numBatches epoch : ℕ) (batches : List Batch)
    (i : ℕ) (s : TState) :
    stepsAll s.wandbStep (runIters cfg numBatches epoch i batches s).2 := by
  induction batches generalizing i s with
  | nil => intro x hx; simp [stepsIn, runIters] at hx
  | cons b rest ih =>
    have hs := iterBody_wandbStep cfg numBatches epoch i b s
    intro x hx
    simp only [runIters, stepsIn, List.filterMap_append, List.mem_append] at hx
    rcases hx with hx | hx
    · exact stepsAll_iterBody cfg numBatches epoch i b s x (by simpa [stepsIn] using hx)
    · have := ih (i + 1) (iterBody cfg numBatches epoch i b s).1 x
        (by simpa [stepsIn] using hx)
      rwa [hs] at this

theorem stepsAll_epochBody (cfg : Config) (numBatches epoch : ℕ) (batches : List Batch)
    (s : TState) :
    stepsAll (s.wandbStep + 1) (epochBody cfg numBatches epoch batches s).2 := by
  intro x hx
  simp only [epochBody, stepsIn, List.filterMap_append, List.mem_append,
    List.filterMap_cons, Event.stepOf, List.filterMap_nil, List.not_mem_nil,
    or_false] at hx
  exact stepsAll_runIters cfg numBatches epoch batches 0 _ x (by simpa [stepsIn] using hx)

theorem runEpochs_wandbStep (cfg : Config) (numBatches : ℕ) (n e : ℕ)
    (data : List (List Batch)) (s : TState) :
    (runEpochs cfg numBatches e n data s).1.wandbStep = s.wandbStep + n := by
  induction n generalizing e data s with
  | zero => simp [runEpochs]
  | succ m ih =>
    simp only [runEpochs, ih, epochBody_wandbStep]
    push_cast
    ring

theorem sorted_of_all_eq (l : List ℤ) (c : ℤ) (h : ∀ x ∈ l, x = c) :
    l.Sorted (· ≤ ·) := by
  induction l with
  | nil => exact List.sorted_nil
  | cons a rest ih =>
    refine List.Pairwise.cons ?_ (ih fun x hx => h x (List.mem_cons_of_mem a hx))
    intro b hb
    rw [h a (List.mem_cons_self a rest), h b (List.mem_cons_of_mem a hb)]

theorem runEpochs_steps_sorted (cfg : Config) (numBatches : ℕ) (n e : ℕ)
    (data : List (List Batch)) (s : TState) :
    (stepsIn (runEpochs cfg numBatches e n data s).2).Sorted (· ≤ ·)
    ∧ ∀ x ∈ stepsIn (runEpochs cfg numBatches e n data s).2,
        s.wandbStep < x ∧ x ≤ s.wandbStep + n := by
  induction n generalizing e data s with
  | zero =>
    refine ⟨List.sorted_nil, ?_⟩
    intro x hx
    simp [stepsIn, runEpochs] at hx
  | succ m ih =>
    have hep := stepsAll_epochBody cfg numBatches e (data.headD []) s
    have hw := epochBody_wandbStep cfg numBatches e (data.headD []) s
    obtain ⟨ihs, ihb⟩ := ih (e + 1) data.tail (epochBody cfg numBatches e (data.headD []) s).1
    constructor
    · show List.Pairwise _ _
      rw [runEpochs, stepsIn_append]
      rw [List.pairwise_append]
      refine ⟨sorted_of_all_eq _ (s.wandbStep + 1) hep, ihs, ?_⟩
      intro a ha b hb
      rw [hep a ha]
      have := (ihb b hb).1
      rw [hw] at this
      exact le_of_lt this
    · intro x hx
      rw [runEpochs, stepsIn_append, List.mem_append] at hx
      rcases hx with hx | hx
      · rw [hep x hx]
        constructor
        · exact lt_add_one _
        · have : (0 : ℤ) ≤ (m : ℤ) := Int.natCast_nonneg m
          push_cast
          omega
      · have := ihb x hx
        rw [hw] at this
        refine ⟨lt_trans (lt_add_one _) this.1, ?_⟩
        have h2 := this.2
        push_cast at h2 ⊢
        omega

/-- C9: over one run of train_and_evaluate, the wandb step values supplied
with the scalar and image log events, read in emission order, form a
monotonically non-decreasing sequence. -/
theorem c9_wandb_step_monotone :
    ∀ (cfg : Config) (numBatches : ℕ) (data : List (List Batch)),
      (stepsIn (trainAndEvaluate cfg numBatches data).2).Sorted (· ≤ ·) := by
  intro cfg numBatches data
  have hrep : stepsIn (syntheticSchedEvents cfg) = [] := by
    simp only [syntheticSchedEvents, stepsIn]
    induction cfg.start_epoch with
    | zero => rfl
    | succ m ih =>
      rw [List.replicate_succ, List.filterMap_cons]
      exact ih
  show (stepsIn (syntheticSchedEvents cfg ++ _)).Sorted (· ≤ ·)
  rw [stepsIn_append, hrep, List.nil_append]
  exact (runEpochs_steps_sorted cfg numBatches (cfg.epochs - cfg.start_epoch)
    cfg.start_epoch data (initState cfg numBatches)).1

/-! ## Claim C6 -/

theorem filter_metricsBlock_eta (b : Batch) (s : TState) :
    (metricsBlock b s).2.filter isEta = [] :=
  filter_metricsBlock_eq_nil _ b s (fun _ _ _ => rfl) (fun _ _ _ => rfl) (fun _ _ => rfl)
    (fun _ _ => rfl) (fun _ _ => rfl) (fun _ _ => rfl)

theorem iterBody_etaFilter (cfg : Config) (numBatches epoch iteration : ℕ) (b : Batch)
    (s : TState) :
    (iterBody cfg numBatches epoch iteration b s).2.filter isEta =
      [Event.etaComputed epoch iteration
        ((s.accTime.update b.iterTime 1).avg * ((numBatches : ℚ) - (iteration : ℚ)))] := by
  by_cases h1 : iteration % cfg.training_loss_log_interval = 0 <;>
    by_cases h2 : iteration % cfg.other_metrics_log_interval = 0 <;>
      simp [iterBody, h1, h2, isEta, List.filter_append, List.filter_cons,
        filter_metricsBlock_eta]

/-- Folding iteration-time updates of weight one onto an accumulator adds
the duration sum to the sum and the batch tally to the count. -/
theorem foldl_update_time (batches : List Batch) (ra : RunningAverage) :
    batches.foldl (fun ra b => ra.update b.iterTime 1) ra =
      ⟨ra.sum + (batches.map Batch.iterTime).sum, ra.count + batches.length⟩ := by
  induction batches generalizing ra with
  | nil => simp
  | cons b rest ih =>
    rw [List.foldl_cons, ih]
    simp only [RunningAverage.update, RunningAverage.mk.injEq, List.map_cons, List.sum_cons,
      List.length_cons]
    constructor
    · ring
    · push_cast
      ring

theorem runIters_etaFilter (cfg : Config) (numBatches epoch : ℕ) (batches : List Batch)
    (i : ℕ) (done : List ℚ) (s : TState)
    (hsum : s.accTime.sum = done.sum) (hcnt : s.accTime.count = done.length) :
    (runIters cfg numBatches epoch i batches s).2.filter isEta =
      etaEventsFrom numBatches epoch i done (batches.map Batch.iterTime) := by
  induction batches generalizing i done s with
  | nil => rfl
  | cons b rest ih =>
    have havg : (s.accTime.update b.iterTime 1).avg =
        ((done ++ [b.iterTime]).sum / ((done ++ [b.iterTime]).length : ℚ)) := by
      simp only [RunningAverage.avg, RunningAverage.update, hsum, hcnt, mul_one,
        List.sum_append, List.sum_cons, List.sum_nil, add_zero, List.length_append,
        List.length_cons, List.length_nil]
      push_cast
      ring_nf
    have hnext := ih (i + 1) (done ++ [b.iterTime]) (iterBody cfg numBatches epoch i b s).1
      (by
        rw [iterBody_accTime]
        simp [RunningAverage.update, hsum, List.sum_append])
      (by
        rw [iterBody_accTime]
        simp only [RunningAverage.update, hcnt, List.length_append, List.length_cons,
          List.length_nil]
        push_cast
        ring)
    simp only [runIters, List.filter_append, iterBody_etaFilter, List.map_cons,
      etaEventsFrom, hnext, havg]
    rfl

theorem epochBody_etaFilter (cfg : Config) (numBatches epoch : ℕ) (batches : List Batch)
    (done : List ℚ) (s : TState)
    (hsum : s.accTime.sum = done.sum) (hcnt : s.accTime.count = done.length) :
    (epochBody cfg numBatches epoch batches s).2.filter isEta =
      etaEventsFrom numBatches epoch 0 done (batches.map Batch.iterTime) := by
  have hr := runIters_etaFilter cfg numBatches epoch batches 0 done
    ({ s with wandbStep := s.wandbStep + 1 }) hsum hcnt
  simp only [epochBody, List.filter_append, hr]
  simp [isEta, List.filter_cons]

theorem headD_map_iterTime (data : List (List Batch)) :
    (data.map (List.map Batch.iterTime)).headD [] = (data.headD []).map Batch.iterTime := by
  cases data <;> rfl

theorem tail_map_iterTime (data : List (List Batch)) :
    (data.map (List.map Batch.iterTime)).tail = data.tail.map (List.map Batch.iterTime) := by
  cases data <;> rfl

theorem runEpochs_etaFilter (cfg : Config) (numBatches : ℕ) (n e : ℕ)
    (data : List (List Batch)) (done : List ℚ) (s : TState)
    (hsum : s.accTime.sum = done.sum) (hcnt : s.accTime.count = done.length) :
    (runEpochs cfg numBatches e n data s).2.filter isEta =
      expectedEtaTrace numBatches e n done (data.map (List.map Batch.iterTime)) := by
  induction n generalizing e data done s with
  | zero => rfl
  | succ m ih =>
    have hbody := epochBody_etaFilter cfg numBatches e (data.headD []) done s hsum hcnt
    have hacc := epochBody_accTime cfg numBatches e (data.headD []) s
    have hnext := ih (e + 1) data.tail (done ++ (data.headD []).map Batch.iterTime)
      (epochBody cfg numBatches e (data.headD []) s).1
      (by
        rw [hacc, foldl_update_time]
        simp [hsum, List.sum_append])
      (by
        rw [hacc, foldl_update_time]
        simp only [hcnt, List.length_append, List.length_map]
        push_cast
        ring)
    simp only [runEpochs, List.filter_append, hbody, hnext, expectedEtaTrace,
      headD_map_iterTime, tail_map_iterTime]

/-- C6 as amended: after each training iteration the ETA computed and
displayed equals the running mean of ALL iteration durations so far in the
run (the duration accumulator spans epochs) multiplied by
(num_batches - iteration) — a factor that still counts the just-completed
iteration, one more than the iterations strictly remaining in the epoch.
The whole ETA event trace of a run equals the closed-form prediction built
from prefix means of the duration sequence. -/
theorem c6_eta_amended :
    ∀ (cfg : Config) (numBatches : ℕ) (data : List (List Batch)),
      (trainAndEvaluate cfg numBatches data).2.filter isEta =
        expectedEtaTrace numBatches cfg.start_epoch (cfg.epochs - cfg.start_epoch) []
          (data.map (List.map Batch.iterTime)) := by
  intro cfg numBatches data
  show (syntheticSchedEvents cfg ++ _).filter isEta = _
  rw [List.filter_append]
  have h0 : (syntheticSchedEvents cfg).filter isEta = [] := by
    simp only [syntheticSchedEvents]
    induction cfg.start_epoch with
    | zero => rfl
    | succ m ih =>
      rw [List.replicate_succ]
      exact ih
  rw [h0, List.nil_append]
  exact runEpochs_etaFilter cfg numBatches (cfg.epochs - cfg.start_epoch) cfg.start_epoch
    data [] (initState cfg numBatches) (by simp [initState, RunningAverage.init])
    (by simp [initState, RunningAverage.init])

/-- Counterexample to C6 as stated: in a one-epoch, one-batch run whose sole
iteration takes 3 seconds, the ETA computed after completing that iteration
is 3 (average duration 3 times num_batches - iteration = 1), although zero
iterations remain in the epoch: the claim's formula, average duration times
the number of iterations remaining after the completed one, predicts 0. -/
theorem c6_counterexample :
    ((trainAndEvaluate ⟨1, 1, 1, 0, 1, 1, 1, 1⟩ 1 [[⟨1, 0, 0, 3, 0, [], 0, 0, []⟩]]).2.filter
        isEta = [Event.etaComputed 0 0 3])
    ∧ strictRemainingEtaTrace 1 0 1 [] [[3]] = [Event.etaComputed 0 0 0]
    ∧ (trainAndEvaluate ⟨1, 1, 1, 0, 1, 1, 1, 1⟩ 1
        [[⟨1, 0, 0, 3, 0, [], 0, 0, []⟩]]).2.filter isEta ≠
      strictRemainingEtaTrace 1 0 1 [] [[3]] := by
  have h1 : (trainAndEvaluate ⟨1, 1, 1, 0, 1, 1, 1, 1⟩ 1
      [[⟨1, 0, 0, 3, 0, [], 0, 0, []⟩]]).2.filter isEta = [Event.etaComputed 0 0 3] := by
    norm_num [trainAndEvaluate, syntheticSchedEvents, runEpochs, epochBody, runIters,
      iterBody, metricsBlock, bestTestUpdate, writeMetricsEvents, comparePredictionsEvents,
      initState, RunningAverage.update, RunningAverage.avg, RunningAverage.init, isEta,
      List.filter_append, List.filter_cons]
  have h2 : strictRemainingEtaTrace 1 0 1 [] [[3]] = [Event.etaComputed 0 0 0] := by
    norm_num [strictRemainingEtaTrace, strictRemainingEtaTrace.strictRemainingEtaEvents]
  refine ⟨h1, h2, ?_⟩
  rw [h1, h2]
  intro hcontra
  have := List.head_eq_of_cons_eq hcontra
  have h3 : (3 : ℚ) = 0 := by
    injection this
  norm_num at h3

end DepthTrainer
